import Mathlib

/-
Verification of the Cute / CUTest unit-test engine (mity/acutest lineage).

Shallow embedding of the two header variants:
  * Source/cute.h   -- the main engine ("Cute_*" identifiers)
  * include/cutest.h -- the older variant ("test_*__" identifiers)

Every definition below is translated from the C source; doc comments name
the C function or code region a definition embeds.
-/

set_option autoImplicit false

namespace Cute

/-! ## Condition recorder and per-test run state (cute.h lines 607-669, 949-1017) -/

/-- One checking-macro invocation inside a test body.  `passed` is the value
of the checked condition, `fatal` is true for the `CUTE_ASSERT` /
`CUTE_ASSERT_FORMAT` macros (which call `Cute_Abort` when the check fails) and
false for plain `CUTE_CHECK`.  `file`, `line` and `desc` carry the
`__FILE__`, `__LINE__` and stringified-condition arguments of the macro. -/
structure Event where
  passed : Bool
  fatal : Bool
  file : String
  line : Nat
  desc : String
deriving DecidableEq

/-- The per-test mutable globals reset at the top of `Cute_RunTest`:
`Cute_testfailures`, `Cute_failedcond`, `Cute_wasaborted`. -/
structure RunState where
  testfailures : Nat
  failedcond : Bool
  wasaborted : Bool
deriving DecidableEq

/-- `Cute_Check` (cute.h lines 607-669): on a failing condition it increments
`Cute_testfailures`; it always sets `Cute_failedcond = (cond == 0)` and
returns the condition value unchanged. -/
def Cute_Check (cond : Bool) (s : RunState) : RunState × Bool :=
  ({ s with
      testfailures := if cond then s.testfailures else s.testfailures + 1,
      failedcond := !cond },
   cond)

/-- Initial `RunState`, as reset at the top of `Cute_RunTest`
(cute.h lines 954-959). -/
def initRunState : RunState := ⟨0, false, false⟩

/-- Execution of a test body in the current process (the `setjmp`-protected
call `test->func()` in `Cute_RunTest`, cute.h lines 968-979).  Each event is a
`Cute_Check` call; a failing fatal check calls `Cute_Abort`, whose `longjmp`
lands at the `aborted:` label with `Cute_wasaborted = 1`, abandoning the rest
of the body. -/
def runChecks : List Event → RunState → RunState
  | [], s => s
  | e :: rest, s =>
    if !e.passed && e.fatal then
      { (Cute_Check e.passed s).1 with wasaborted := true }
    else
      runChecks rest (Cute_Check e.passed s).1

/-- The checks actually executed in a body: everything up to and including
the first failing fatal check (nothing after the abort point runs). -/
def checksMade : List Event → List Event
  | [] => []
  | e :: rest =>
    if !e.passed && e.fatal then [e]
    else e :: checksMade rest

/-- Outcome classification of an inline test, following the reporting branch
at the end of `Cute_RunTest` (cute.h lines 982-1008): zero failures is a
success; a nonzero failure count is reported as "N conditions have failed"
unless `Cute_wasaborted` is set, in which case it is reported "Aborted.". -/
inductive Outcome where
  | Passed
  | Failed
  | Aborted
deriving DecidableEq

/-- Classification by `Cute_testfailures` / `Cute_wasaborted`
(cute.h lines 982-1008). -/
def classify (s : RunState) : Outcome :=
  if s.testfailures = 0 then Outcome.Passed
  else if s.wasaborted = true then Outcome.Aborted
  else Outcome.Failed

/-- `Cute_RunTest` (cute.h lines 949-1017): runs the body inline and returns
the final run state together with the status value
`(Cute_testfailures == 0) ? 0 : -1`. -/
def Cute_RunTest (body : List Event) : RunState × Int :=
  (runChecks body initRunState,
   if (runChecks body initRunState).testfailures = 0 then 0 else -1)

/-! ## The isolated (child-process) fatal path (cute.h lines 816-826, 1022-1137) -/

/-- How a child process running one test terminates (the `waitpid` status
decoded by the parent in `Cute_RunUnit`). -/
inductive ChildTermination where
  | exited (code : Nat)
  | signaled (sig : Nat)
deriving DecidableEq

/-- `SIGABRT`, the signal raised by the `abort()` call in `Cute_Abort` when
no jump buffer is armed (cute.h lines 816-826). -/
def sigabrt : Nat := 6

/-- Execution of a test body inside the forked worker (cute.h lines
1047-1051): the worker runs `Cute_RunTest` with `Cute_worker = 1`, so no jump
buffer is armed; a failing fatal check makes `Cute_Abort` call `abort()`,
terminating the child with `SIGABRT`.  A body that runs to completion makes
the child call `Cute_Exit(failed ? 1 : 0)`. -/
def runChecksWorker : List Event → RunState → ChildTermination
  | [], s => ChildTermination.exited (if s.testfailures = 0 then 0 else 1)
  | e :: rest, s =>
    if !e.passed && e.fatal then ChildTermination.signaled sigabrt
    else runChecksWorker rest (Cute_Check e.passed s).1

/-- The parent's analysis of the child's termination in `Cute_RunUnit`
(cute.h lines 1053-1079): `failed` starts at 1 and is cleared only when the
child exits with code 0; any other exit code or any signal leaves the unit
counted as failed. -/
def parentSawFailure : ChildTermination → Bool
  | ChildTermination.exited 0 => false
  | _ => true

/-! ## Test selection: registry, run flags, name resolver
(cute.h lines 838-846, 860-919, 1480-1486, 1636-1690) -/

/-- A registered test name, as a character list (a C string). -/
abbrev Name := List Char

/-- The selection state: the per-test `CUTE_FLAG_RUN` bits held in
`Cute_data_test[i].flags` and the global counter `Cute_count`. -/
structure SelState where
  flags : List Bool
  count : Nat
deriving DecidableEq

/-- Selection state right after `main` allocates `Cute_data_test` with
`calloc` (cute.h line 1617): all flags clear, `Cute_count = 0`. -/
def initSel (n : Nat) : SelState := ⟨List.replicate n false, 0⟩

/-- `Cute_Remember` (cute.h lines 838-846): marks test `i` to run; if the
`CUTE_FLAG_RUN` bit is already set it does nothing, otherwise it sets the bit
and increments `Cute_count`. -/
def Cute_Remember (s : SelState) (i : Nat) : SelState :=
  if s.flags.getD i false then s
  else ⟨s.flags.set i true, s.count + 1⟩

/-- Number of registry entries whose `CUTE_FLAG_RUN` bit is set. -/
def countMarked (s : SelState) : Nat := s.flags.countP (fun b => b)

/-- Whether `pattern` occurs in `name` starting at position `i`
(one candidate position of the `strstr` scan). -/
def strstrAt (name pattern : Name) (i : Nat) : Bool :=
  (name.drop i).take pattern.length == pattern

/-- `strstr(name, pattern) != NULL`: unanchored substring containment,
the third (relaxed) matching tier of `Cute_Lookup` (cute.h lines 910-916). -/
def hasSubstring (name pattern : Name) : Bool :=
  (List.range (name.length + 1)).any (fun i => strstrAt name pattern i)

/-- The delimiter set `word_delim[] = " \t-_/.,:;"` of
`Cute_ConfirmNameContainsWord` (cute.h line 863). -/
def wordDelim : Name := [' ', '\t', '-', '_', '/', '.', ',', ':', ';']

/-- `Cute_ConfirmNameContainsWord` (cute.h lines 860-881): true when some
occurrence of `pattern` inside `name` both starts and ends on a word
boundary, a boundary being the string edge or a character of `wordDelim`. -/
def Cute_ConfirmNameContainsWord (name pattern : Name) : Bool :=
  (List.range (name.length + 1)).any (fun i =>
    strstrAt name pattern i &&
    (i == 0 || wordDelim.contains (name.getD (i - 1) ' ')) &&
    (i + pattern.length == name.length ||
      wordDelim.contains (name.getD (i + pattern.length) ' ')))

/-- The exact-match tier of `Cute_Lookup` (cute.h lines 889-898): the loop
stops at the first name equal to the pattern (`break` after `Cute_Remember`). -/
def exactIdx : List Name → Name → Option Nat
  | [], _ => none
  | nm :: rest, pattern =>
    if nm == pattern then some 0
    else (exactIdx rest pattern).map (· + 1)

/-- Indices matched by the word tier of `Cute_Lookup` (cute.h lines 900-908). -/
def wordMatchIdxs (names : List Name) (pattern : Name) : List Nat :=
  (List.range names.length).filter
    (fun i => Cute_ConfirmNameContainsWord (names.getD i []) pattern)

/-- Indices matched by the relaxed substring tier of `Cute_Lookup`
(cute.h lines 910-916). -/
def substrMatchIdxs (names : List Name) (pattern : Name) : List Nat :=
  (List.range names.length).filter
    (fun i => hasSubstring (names.getD i []) pattern)

/-- `Cute_Lookup` (cute.h lines 883-919): try the exact tier (remembering the
first exact match and returning 1); if it matched nothing, try the word tier;
if that matched nothing, fall back to the substring tier.  Returns the updated
selection state and the match count `n`. -/
def Cute_Lookup (names : List Name) (pattern : Name) (s : SelState) : SelState × Nat :=
  match exactIdx names pattern with
  | some i => (Cute_Remember s i, 1)
  | none =>
    let w := wordMatchIdxs names pattern
    if w.length > 0 then (w.foldl Cute_Remember s, w.length)
    else
      let r := substrMatchIdxs names pattern
      (r.foldl Cute_Remember s, r.length)

/-- The match count of `Cute_Lookup`, which depends only on the registry and
the pattern (marking never affects matching). -/
def matchCount (names : List Name) (pattern : Name) : Nat :=
  match exactIdx names pattern with
  | some _ => 1
  | none =>
    let w := wordMatchIdxs names pattern
    if w.length > 0 then w.length
    else (substrMatchIdxs names pattern).length

/-- Processing of the non-option command-line arguments by
`Cute_CallbackCmdline` case 0 (cute.h lines 1480-1486): each pattern is
handed to `Cute_Lookup`; a pattern matching zero tests makes the program
print an error and call `Cute_Exit(2)` (modelled as `none`). -/
def processPatterns (names : List Name) : List Name → SelState → Option SelState
  | [], s => some s
  | p :: ps, s =>
    let r := Cute_Lookup names p s
    if r.2 = 0 then none else processPatterns names ps r.1

/-- The registry indices executed by the run loop of `main`
(cute.h lines 1683-1690): iterate the registry in order; a test runs when its
`CUTE_FLAG_RUN` bit is set, inverted under `--skip`. -/
def executedIndices (n : Nat) (flags : List Bool) (skip : Bool) : List Nat :=
  (List.range n).filter
    (fun i => if skip then !(flags.getD i false) else flags.getD i false)

/-- Result of a whole `main` invocation of cute.h, as far as selection is
concerned: whether the run was cut short by a usage error (exit status 2),
and which registry indices were executed, in execution order. -/
structure MainResult where
  usageError : Bool
  executed : List Nat
deriving DecidableEq

/-- The selection pipeline of `main` (cute.h lines 1593-1690): parse the
selection patterns (exiting with status 2 on an unmatched one, before any
test runs); if nothing was selected, remember every test; then run the loop
over the registry. -/
def cuteMainRun (names : List Name) (patterns : List Name) (skip : Bool) : MainResult :=
  match processPatterns names patterns (initSel names.length) with
  | none => ⟨true, []⟩
  | some s0 =>
    let s1 := if s0.count = 0 then
        (List.range names.length).foldl Cute_Remember s0
      else s0
    ⟨false, executedIndices names.length s1.flags skip⟩

/-- Isolation-policy auto-detection in `main` (cute.h lines 1643-1667):
when `Cute_noexec` was forced on the command line (`some b`) that choice
stands; otherwise it defaults to 0 (child processes) but is forced to 1
(inline) when at most one test is selected, or when a debugger, tracer or
memory checker is detected (`detected`). -/
def resolveNoexec : Option Bool → Nat → Bool → Bool
  | some b, _, _ => b
  | none, count, detected => if count ≤ 1 then true else detected

/-! ## The cutest.h variant of selection and ordering
(include/cutest.h lines 380-455) -/

/-- `test_by_name__` (cutest.h lines 205-216): linear scan for the first
registered test with exactly the given name; pointer identity is modelled as
the index of that first match. -/
def test_by_name (names : List Name) (arg : Name) : Option Nat :=
  exactIdx names arg

/-- The selection array `tests[]` built by the argument loop of cutest.h
`main` (lines 406-414): every non-option argument appends the test found by
`test_by_name__`, exiting with status 2 (`none`) when the name is unknown.
Duplicated names are appended again — there is no deduplication. -/
def cutestSelect (names : List Name) : List Name → Option (List Nat)
  | [] => some []
  | a :: rest =>
    match test_by_name names a with
    | none => none
    | some i => (cutestSelect names rest).map (fun l => i :: l)

/-- The run phase of cutest.h `main` (lines 431-455): with no selected tests
run the whole registry in registration order; without skip mode run the
selected tests in command-line order; with skip mode run the registry in
order, dropping the selected ones. -/
def cutestExecuted (names : List Name) (args : List Name) (skip : Bool) : Option (List Nat) :=
  match cutestSelect names args with
  | none => none
  | some sel =>
    some (if args.isEmpty then List.range names.length
          else if !skip then sel
          else (List.range names.length).filter (fun i => !(sel.contains i)))

/-! ## Diagnostic attachment: Cute_Message and Cute_Dump
(cute.h lines 700-734, 736-788) -/

/-- The globals consulted by `Cute_Message` / `Cute_Dump`:
`Cute_level_verbose`, `Cute_currenttest != NULL`, and `Cute_failedcond`
(set by the most recent `Cute_Check` of the current test). -/
structure DiagCtx where
  verbose : Int
  inTest : Bool
  failedcond : Bool
deriving DecidableEq

/-- `Cute_Message` (cute.h lines 700-734): returns the text forwarded to the
reporter, or `none` when nothing is printed.  The early returns are, in
order: verbose level below 2; no current test or the most recent check of
the current test did not fail. -/
def Cute_Message (ctx : DiagCtx) (text : String) : Option String :=
  if ctx.verbose < 2 then none
  else if !ctx.inTest || !ctx.failedcond then none
  else some text

/-- `CUTE_DUMP_MAXSIZE` (cute.h lines 193-195). -/
def CUTE_DUMP_MAXSIZE : Nat := 1024

/-- The 16-bytes-per-line row structure of the hex dump loop in `Cute_Dump`
(cute.h lines 759-782). -/
def chunk16 : List Nat → List (List Nat)
  | [] => []
  | x :: rest => (x :: rest.take 15) :: chunk16 (rest.drop 15)
termination_by l => l.length
decreasing_by
  simp only [List.length_drop, List.length_cons]
  omega

/-- `Cute_Dump` (cute.h lines 736-788): same gating as `Cute_Message`; when
active, the dumped block is truncated to `CUTE_DUMP_MAXSIZE` bytes and
rendered in rows of 16 bytes. -/
def Cute_Dump (ctx : DiagCtx) (bytes : List Nat) : Option (List (List Nat)) :=
  if ctx.verbose < 2 then none
  else if !ctx.inTest || !ctx.failedcond then none
  else some (chunk16 (bytes.take CUTE_DUMP_MAXSIZE))

/-! ## The TAP reporter stream
(cute.h lines 560-587, 607-669, 1669-1690) -/

/-- The `"1..N"` plan line: `printf("1..%d\n", (int) Cute_count)`
(cute.h line 1680). -/
def tapPlanLine (s : SelState) : String := "1.." ++ toString s.count

theorem getD_mem_of_lt {α : Type} (l : List α) (d : α) (i : Nat)
    (h : i < l.length) : l.getD i d ∈ l := by
  induction l generalizing i with
  | nil => simp at h
  | cons a t ih =>
    cases i with
    | zero => simp
    | succ j =>
      simp only [List.getD_cons_succ]
      exact List.mem_cons_of_mem _ (ih j (by simpa using h))

theorem getD_set_true_self (l : List Bool) (i : Nat) (h : i < l.length) :
    (l.set i true).getD i false = true := by
  induction l generalizing i with
  | nil => simp at h
  | cons a t ih =>
    cases i with
    | zero => simp
    | succ j => simpa using ih j (by simpa using h)

theorem getD_set_true_mono (l : List Bool) (i k : Nat)
    (h : l.getD k false = true) : (l.set i true).getD k false = true := by
  induction l generalizing i k with
  | nil => simp at h
  | cons a t ih =>
    cases i with
    | zero =>
      cases k with
      | zero => simp
      | succ j => simpa using h
    | succ i' =>
      cases k with
      | zero => simpa using h
      | succ j => simpa using ih i' j (by simpa using h)

theorem countP_set_true (l : List Bool) (i : Nat) (h1 : i < l.length)
    (h2 : l.getD i false = false) :
    (l.set i true).countP (fun b => b) = l.countP (fun b => b) + 1 := by
  induction l generalizing i with
  | nil => simp at h1
  | cons a t ih =>
    cases i with
    | zero =>
      simp only [List.getD_cons_zero] at h2
      subst h2
      simp [List.countP_cons]
    | succ j =>
      simp only [List.getD_cons_succ] at h2
      simp only [List.set_cons_succ, List.countP_cons]
      rw [ih j (by simpa using h1) h2]
      omega

theorem remember_length (s : SelState) (i : Nat) :
    (Cute_Remember s i).flags.length = s.flags.length := by
  unfold Cute_Remember
  split <;> simp

theorem remember_getD_mono (s : SelState) (i k : Nat)
    (h : s.flags.getD k false = true) :
    (Cute_Remember s i).flags.getD k false = true := by
  unfold Cute_Remember
  split
  · exact h
  · exact getD_set_true_mono _ _ _ h

theorem remember_getD_self (s : SelState) (i : Nat) (h : i < s.flags.length) :
    (Cute_Remember s i).flags.getD i false = true := by
  unfold Cute_Remember
  split
  · assumption
  · exact getD_set_true_self _ _ h

theorem remember_idem (s : SelState) (i : Nat) (h : i < s.flags.length) :
    Cute_Remember (Cute_Remember s i) i = Cute_Remember s i := by
  have h2 : (Cute_Remember s i).flags.getD i false = true :=
    remember_getD_self s i h
  show (if (Cute_Remember s i).flags.getD i false then Cute_Remember s i
        else ⟨(Cute_Remember s i).flags.set i true, (Cute_Remember s i).count + 1⟩) =
      Cute_Remember s i
  rw [h2]
  simp

theorem markFold_length (l : List Nat) : ∀ s : SelState,
    ((l.foldl Cute_Remember s).flags.length) = s.flags.length := by
  induction l with
  | nil => intro s; rfl
  | cons j t ih =>
    intro s
    simp only [List.foldl_cons]
    rw [ih (Cute_Remember s j), remember_length]

theorem markFold_getD (l : List Nat) : ∀ (s : SelState) (k : Nat),
    k < s.flags.length → (k ∈ l ∨ s.flags.getD k false = true) →
    (l.foldl Cute_Remember s).flags.getD k false = true := by
  induction l with
  | nil =>
    intro s k _ h
    simpa using h.resolve_left (by simp)
  | cons j t ih =>
    intro s k hk h
    simp only [List.foldl_cons]
    have hk' : k < (Cute_Remember s j).flags.length := by
      rw [remember_length]; exact hk
    rcases h with h | h
    · rcases List.mem_cons.mp h with rfl | hmem
      · exact ih _ k hk' (Or.inr (remember_getD_self s k hk))
      · exact ih _ k hk' (Or.inl hmem)
    · exact ih _ k hk' (Or.inr (remember_getD_mono s j k h))

theorem filter_eq_self_of_all {α : Type} (p : α → Bool) :
    ∀ l : List α, (∀ a ∈ l, p a = true) → l.filter p = l := by
  intro l h
  induction l with
  | nil => rfl
  | cons a t ih =>
    have ha : p a = true := h a (by simp)
    simp only [List.filter_cons, ha, if_true]
    rw [ih (fun b hb => h b (List.mem_cons_of_mem _ hb))]

theorem runChecks_failures_count : ∀ (l : List Event) (s : RunState),
    (runChecks l s).testfailures =
      s.testfailures + (checksMade l).countP (fun e => !e.passed) := by
  intro l
  induction l with
  | nil => intro s; simp [runChecks, checksMade]
  | cons e rest ih =>
    intro s
    cases hpe : e.passed with
    | true => simp [runChecks, checksMade, Cute_Check, hpe, List.countP_cons, ih]
    | false =>
      cases hfe : e.fatal with
      | true => simp [runChecks, checksMade, Cute_Check, hpe, hfe, List.countP_cons]
      | false =>
        simp [runChecks, checksMade, Cute_Check, hpe, hfe, List.countP_cons, ih]
        omega

theorem runChecks_aborted_pos : ∀ (l : List Event) (s : RunState),
    s.wasaborted = false → (runChecks l s).wasaborted = true →
    0 < (runChecks l s).testfailures := by
  intro l
  induction l with
  | nil =>
    intro s h0 h1
    simp only [runChecks] at h1
    rw [h1] at h0
    cases h0
  | cons e rest ih =>
    intro s h0 h1
    cases hpe : e.passed with
    | true =>
      simp only [runChecks, Cute_Check, hpe] at h1 ⊢
      simp only [Bool.not_true, Bool.false_and, Bool.false_eq_true, if_false] at h1 ⊢
      exact ih _ (by simpa using h0) h1
    | false =>
      cases hfe : e.fatal with
      | true => simp [runChecks, Cute_Check, hpe, hfe]
      | false =>
        simp only [runChecks, Cute_Check, hpe, hfe] at h1 ⊢
        simp only [Bool.not_false, Bool.true_and, Bool.false_eq_true, if_false] at h1 ⊢
        exact ih _ (by simpa using h0) h1

theorem cleanEvent_not_abort (e : Event)
    (h : e.passed = true ∨ e.fatal = false) : (!e.passed && e.fatal) = false := by
  rcases h with h | h <;> simp [h]

theorem runChecks_append_clean (l : List Event)
    (h : ∀ x ∈ l, x.passed = true ∨ x.fatal = false) :
    ∀ (r : List Event) (s : RunState),
    runChecks (l ++ r) s = runChecks r (runChecks l s) := by
  induction l with
  | nil => intro r s; simp [runChecks]
  | cons e rest ih =>
    intro r s
    have he := cleanEvent_not_abort e (h e (by simp))
    simp only [List.cons_append, runChecks, he, Bool.false_eq_true, if_false]
    exact ih (fun x hx => h x (List.mem_cons_of_mem _ hx)) r _

theorem runChecksWorker_append_clean (l : List Event)
    (h : ∀ x ∈ l, x.passed = true ∨ x.fatal = false) :
    ∀ (r : List Event) (s : RunState),
    runChecksWorker (l ++ r) s = runChecksWorker r (runChecks l s) := by
  induction l with
  | nil => intro r s; simp [runChecks]
  | cons e rest ih =>
    intro r s
    have he := cleanEvent_not_abort e (h e (by simp))
    simp only [List.cons_append, runChecksWorker, runChecks, he,
      Bool.false_eq_true, if_false]
    exact ih (fun x hx => h x (List.mem_cons_of_mem _ hx)) r _

theorem checksMade_append_clean (l : List Event)
    (h : ∀ x ∈ l, x.passed = true ∨ x.fatal = false) :
    ∀ r : List Event, checksMade (l ++ r) = l ++ checksMade r := by
  induction l with
  | nil => intro r; simp
  | cons e rest ih =>
    intro r
    have he := cleanEvent_not_abort e (h e (by simp))
    have ihr := ih (fun x hx => h x (List.mem_cons_of_mem _ hx)) r
    simp only [List.cons_append, checksMade, he, Bool.false_eq_true, if_false]
    rw [show rest.append r = rest ++ r from rfl, ihr]

theorem exactIdx_of_getD (pattern : Name) :
    ∀ (names : List Name) (i : Nat), i < names.length →
    names.getD i [] = pattern → names.Nodup →
    exactIdx names pattern = some i := by
  intro names
  induction names with
  | nil => intro i h; simp at h
  | cons nm rest ih =>
    intro i hi heq hnd
    cases i with
    | zero =>
      simp only [List.getD_cons_zero] at heq
      subst heq
      simp [exactIdx]
    | succ j =>
      simp only [List.getD_cons_succ] at heq
      have hj : j < rest.length := by simpa using hi
      have hmem : pattern ∈ rest := heq ▸ getD_mem_of_lt rest [] j hj
      have hne : nm ≠ pattern := by
        intro hc
        exact (List.nodup_cons.mp hnd).1 (hc ▸ hmem)
      have : (nm == pattern) = false := beq_eq_false_iff_ne.mpr hne
      simp only [exactIdx, this, Bool.false_eq_true, if_false]
      rw [ih j hj heq (List.nodup_cons.mp hnd).2]
      rfl

theorem exactIdx_lt (pattern : Name) : ∀ (names : List Name) (i : Nat),
    exactIdx names pattern = some i → i < names.length := by
  intro names
  induction names with
  | nil => intro i h; simp [exactIdx] at h
  | cons nm rest ih =>
    intro i h
    simp only [exactIdx] at h
    by_cases hb : (nm == pattern) = true
    · rw [if_pos hb] at h
      cases h
      simp
    · rw [if_neg hb] at h
      cases hrec : exactIdx rest pattern with
      | none => rw [hrec] at h; cases h
      | some j =>
        rw [hrec] at h
        simp only [Option.map_some'] at h
        cases h
        have := ih j hrec
        simp only [List.length_cons]
        omega

theorem lookup_count_eq (names : List Name) (pattern : Name) (s : SelState) :
    (Cute_Lookup names pattern s).2 = matchCount names pattern := by
  unfold Cute_Lookup matchCount
  cases exactIdx names pattern with
  | some i => rfl
  | none =>
    simp only
    split <;> rfl

theorem processPatterns_none_iff (names : List Name) :
    ∀ (ps : List Name) (s : SelState),
    processPatterns names ps s = none ↔ ∃ p ∈ ps, matchCount names p = 0 := by
  intro ps
  induction ps with
  | nil => intro s; simp [processPatterns]
  | cons p t ih =>
    intro s
    simp only [processPatterns, lookup_count_eq]
    by_cases h0 : matchCount names p = 0
    · rw [if_pos h0]
      simp only [true_iff]
      exact ⟨p, by simp, h0⟩
    · rw [if_neg h0, ih]
      constructor
      · rintro ⟨q, hq, hq0⟩
        exact ⟨q, List.mem_cons_of_mem _ hq, hq0⟩
      · rintro ⟨q, hq, hq0⟩
        rcases List.mem_cons.mp hq with rfl | hq'
        · exact absurd hq0 h0
        · exact ⟨q, hq', hq0⟩

theorem chunk16_rows : ∀ l : List Nat, ∀ r ∈ chunk16 l, r.length ≤ 16 := by
  intro l
  induction l using chunk16.induct with
  | case1 => simp [chunk16]
  | case2 x rest ih =>
    intro r hr
    rw [chunk16] at hr
    rcases List.mem_cons.mp hr with rfl | hr'
    · have := List.length_take_le 15 rest
      simp only [List.length_cons]
      omega
    · exact ih r hr'

/-! ## Claim theorems -/

/-- C1: in inline mode the outcome of a test is a function of the per-test
failure counter: the counter equals the number of failing `Cute_Check` calls
actually made (those before the fatal point when the test aborted); zero
failures classifies the test Passed; a nonzero count without an abort
classifies it Failed; a fired fatal assertion classifies it Aborted and the
test still counts as failed (`Cute_RunTest` returns nonzero status). -/
theorem C1_inline_outcome_classification (body : List Event) :
    (runChecks body initRunState).testfailures =
      (checksMade body).countP (fun e => !e.passed) ∧
    ((runChecks body initRunState).testfailures = 0 →
      classify (runChecks body initRunState) = Outcome.Passed) ∧
    ((runChecks body initRunState).wasaborted = false →
      (runChecks body initRunState).testfailures ≠ 0 →
      classify (runChecks body initRunState) = Outcome.Failed ∧
      (Cute_RunTest body).2 = -1) ∧
    ((runChecks body initRunState).wasaborted = true →
      classify (runChecks body initRunState) = Outcome.Aborted ∧
      (Cute_RunTest body).2 = -1) := by
  refine ⟨?_, ?_, ?_, ?_⟩
  · simpa [initRunState] using runChecks_failures_count body initRunState
  · intro h0
    simp [classify, h0]
  · intro hab hne
    constructor
    · simp [classify, hne, hab]
    · simp [Cute_RunTest, hne]
  · intro hab
    have hpos : 0 < (runChecks body initRunState).testfailures :=
      runChecks_aborted_pos body initRunState rfl hab
    constructor
    · simp [classify, hab]
      omega
    · simp [Cute_RunTest]
      omega

/-- C1 witness: a body whose only check is a failing fatal assertion is
classified Aborted and counted as failed. -/
theorem C1_witness :
    classify (runChecks [⟨false, true, "t.c", 1, "x"⟩] initRunState) = Outcome.Aborted ∧
    (Cute_RunTest [⟨false, true, "t.c", 1, "x"⟩]).2 = -1 :=
  (C1_inline_outcome_classification [⟨false, true, "t.c", 1, "x"⟩]).2.2.2 (by decide)

/-- C2: for a body containing a fatal failing assertion (after a clean
prefix), the longjmp unwind of inline mode and the process termination of
the isolated worker agree observably: the test is marked failed in both
(`Cute_RunTest` returns nonzero status; the parent counts the unit failed),
the worker terminates with the distinguished `SIGABRT` status (neither the
clean exit 0 nor the ordinary-failure exit 1), and in both mechanics exactly
the checks up to the fatal point are recorded — no condition after the abort
point is processed. -/
theorem C2_fatal_mechanics_agree (pre post : List Event) (e : Event)
    (hpre : ∀ x ∈ pre, x.passed = true ∨ x.fatal = false)
    (hp : e.passed = false) (hf : e.fatal = true) :
    (runChecks (pre ++ e :: post) initRunState).wasaborted = true ∧
    (Cute_RunTest (pre ++ e :: post)).2 = -1 ∧
    runChecksWorker (pre ++ e :: post) initRunState =
      ChildTermination.signaled sigabrt ∧
    runChecksWorker (pre ++ e :: post) initRunState ≠ ChildTermination.exited 0 ∧
    runChecksWorker (pre ++ e :: post) initRunState ≠ ChildTermination.exited 1 ∧
    parentSawFailure (runChecksWorker (pre ++ e :: post) initRunState) = true ∧
    checksMade (pre ++ e :: post) = pre ++ [e] ∧
    (runChecks (pre ++ e :: post) initRunState).testfailures =
      (runChecks pre initRunState).testfailures + 1 := by
  have hrun : runChecks (pre ++ e :: post) initRunState =
      runChecks (e :: post) (runChecks pre initRunState) :=
    runChecks_append_clean pre hpre (e :: post) initRunState
  have hstep : runChecks (e :: post) (runChecks pre initRunState) =
      ⟨(runChecks pre initRunState).testfailures + 1, true, true⟩ := by
    simp [runChecks, Cute_Check, hp, hf]
  have hworker : runChecksWorker (pre ++ e :: post) initRunState =
      ChildTermination.signaled sigabrt := by
    rw [runChecksWorker_append_clean pre hpre (e :: post) initRunState]
    simp [runChecksWorker, hp, hf]
  refine ⟨?_, ?_, hworker, ?_, ?_, ?_, ?_, ?_⟩
  · rw [hrun, hstep]
  · simp only [Cute_RunTest, hrun, hstep]
    norm_num
  · rw [hworker]
    intro hc
    cases hc
  · rw [hworker]
    intro hc
    cases hc
  · rw [hworker]
    rfl
  · rw [checksMade_append_clean pre hpre (e :: post)]
    simp [checksMade, hp, hf]
  · rw [hrun, hstep]

/-- C2 witness: a concrete three-check body (pass, fatal failure, pass)
aborts both mechanics in agreement, with the trailing check unprocessed. -/
theorem C2_witness :
    runChecksWorker
        [⟨true, false, "t.c", 1, "a"⟩, ⟨false, true, "t.c", 2, "b"⟩,
         ⟨true, false, "t.c", 3, "c"⟩] initRunState =
      ChildTermination.signaled sigabrt ∧
    checksMade
        [⟨true, false, "t.c", 1, "a"⟩, ⟨false, true, "t.c", 2, "b"⟩,
         ⟨true, false, "t.c", 3, "c"⟩] =
      [⟨true, false, "t.c", 1, "a"⟩, ⟨false, true, "t.c", 2, "b"⟩] := by
  have h := C2_fatal_mechanics_agree [⟨true, false, "t.c", 1, "a"⟩]
    [⟨true, false, "t.c", 3, "c"⟩] ⟨false, true, "t.c", 2, "b"⟩
    (by decide) rfl rfl
  exact ⟨h.2.2.1, h.2.2.2.2.2.2.1⟩

/-- C3: pattern matching proceeds through three tiers in order — exact name
equality, whole-word containment (`Cute_ConfirmNameContainsWord` over the
fixed delimiter set), then unanchored substring containment — stopping at
the first tier with at least one match.  In particular a pattern equal to a
registered name (names being unique) marks exactly that one test and reports
one match, even if the pattern is a substring of other names. -/
theorem C3_three_tier_lookup (names : List Name) (pattern : Name) (s : SelState)
    (i : Nat) (hi : i < names.length) (heq : names.getD i [] = pattern)
    (hnd : names.Nodup) :
    Cute_Lookup names pattern s = (Cute_Remember s i, 1) ∧
    (∀ (ns : List Name) (p : Name) (s2 : SelState),
      exactIdx ns p = none → 0 < (wordMatchIdxs ns p).length →
      Cute_Lookup ns p s2 =
        ((wordMatchIdxs ns p).foldl Cute_Remember s2, (wordMatchIdxs ns p).length)) ∧
    (∀ (ns : List Name) (p : Name) (s2 : SelState),
      exactIdx ns p = none → (wordMatchIdxs ns p).length = 0 →
      Cute_Lookup ns p s2 =
        ((substrMatchIdxs ns p).foldl Cute_Remember s2,
         (substrMatchIdxs ns p).length)) := by
  refine ⟨?_, ?_, ?_⟩
  · have hx := exactIdx_of_getD pattern names i hi heq hnd
    simp [Cute_Lookup, hx]
  · intro ns p s2 hnone hw
    simp [Cute_Lookup, hnone, hw]
  · intro ns p s2 hnone hw
    simp [Cute_Lookup, hnone, hw]

/-- C3 witness: in the registry `{"ab", "abc"}` the pattern `"ab"` equals the
first name and is also a substring of the second; lookup marks only the
first test and reports one match. -/
theorem C3_witness :
    Cute_Lookup [['a','b'], ['a','b','c']] ['a','b'] (initSel 2) =
      (Cute_Remember (initSel 2) 0, 1) ∧
    hasSubstring ['a','b','c'] ['a','b'] = true :=
  ⟨(C3_three_tier_lookup [['a','b'], ['a','b','c']] ['a','b'] (initSel 2) 0
      (by decide) (by decide) (by decide)).1,
   by decide⟩

/-- C4: a user-supplied selection pattern matching zero registered tests
under all three tiers makes the run exit with the usage error (status 2,
modelled by `usageError = true`) before any test runs (`executed = []`);
when every pattern matches at least one test no usage error is raised. -/
theorem C4_unmatched_pattern_usage_error (names patterns : List Name) (skip : Bool) :
    ((∃ p ∈ patterns, matchCount names p = 0) →
      cuteMainRun names patterns skip = ⟨true, []⟩) ∧
    ((∀ p ∈ patterns, matchCount names p ≠ 0) →
      (cuteMainRun names patterns skip).usageError = false) := by
  constructor
  · intro hex
    have hn : processPatterns names patterns (initSel names.length) = none :=
      (processPatterns_none_iff names patterns _).mpr hex
    simp [cuteMainRun, hn]
  · intro hall
    cases hps : processPatterns names patterns (initSel names.length) with
    | none =>
      rcases (processPatterns_none_iff names patterns _).mp hps with ⟨p, hp, h0⟩
      exact absurd h0 (hall p hp)
    | some s0 => simp [cuteMainRun, hps]

/-- C4 witness: with registry `{"a"}`, the pattern `"b"` matches nothing and
the run exits with the usage error before running any test. -/
theorem C4_witness : cuteMainRun [['a']] [['b']] false = ⟨true, []⟩ :=
  (C4_unmatched_pattern_usage_error [['a']] [['b']] false).1
    ⟨['b'], by decide, by decide⟩

/-- C5 counterexample: the claim fails on the cutest.h variant — with
registry `{"a", "b"}` and the selection arguments `b a`, the listed tests run
in command-line order `[1, 0]`, not in registration order `[0, 1]`. -/
theorem C5_counterexample :
    cutestExecuted [['a'], ['b']] [['b'], ['a']] false = some [1, 0] ∧
    ([1, 0] : List Nat) ≠ [0, 1] := by
  constructor
  · rfl
  · decide

/-- C5 amended: with no selection arguments both variants execute every
registered test exactly once in registration order; in the cute.h engine any
selected subset also runs in registration order with no repetition (the run
loop is a filter of the registry order), while the cutest.h variant runs
listed tests in command-line order. -/
theorem C5_registration_order (names : List Name) (flags : List Bool) (skip : Bool) :
    (cuteMainRun names [] false).usageError = false ∧
    (cuteMainRun names [] false).executed = List.range names.length ∧
    cutestExecuted names [] skip = some (List.range names.length) ∧
    List.Sublist (executedIndices names.length flags skip)
      (List.range names.length) ∧
    (executedIndices names.length flags skip).Nodup := by
  have hflags : ∀ i, i < names.length →
      (((List.range names.length).foldl Cute_Remember
          (initSel names.length)).flags.getD i false) = true := by
    intro i hi
    apply markFold_getD
    · simpa [initSel] using hi
    · exact Or.inl (List.mem_range.mpr hi)
  have hexec : executedIndices names.length
      (((List.range names.length).foldl Cute_Remember
        (initSel names.length)).flags) false = List.range names.length := by
    unfold executedIndices
    apply filter_eq_self_of_all
    intro a ha
    simpa using hflags a (List.mem_range.mp ha)
  have hmain : cuteMainRun names [] false =
      ⟨false, executedIndices names.length
        (((List.range names.length).foldl Cute_Remember
          (initSel names.length)).flags) false⟩ := rfl
  refine ⟨?_, ?_, ?_, ?_, ?_⟩
  · rw [hmain]
  · rw [hmain, hexec]
  · rfl
  · exact List.filter_sublist _
  · exact List.Nodup.sublist (List.filter_sublist _) (List.nodup_range names.length)

/-- C6: in the cute.h engine, for every registry size and marking, the set of
indices executed under skip mode is exactly the complement (within the
registry) of the set executed without skip mode: membership in one is
equivalent to registry membership plus absence from the other, so their
union is the full registry and their intersection is empty. -/
theorem C6_skip_complement (n : Nat) (flags : List Bool) (i : Nat) :
    (i ∈ executedIndices n flags true ↔
      i ∈ List.range n ∧ i ∉ executedIndices n flags false) ∧
    (i ∈ executedIndices n flags false ↔
      i ∈ List.range n ∧ i ∉ executedIndices n flags true) := by
  cases hgd : flags.getD i false <;>
    by_cases hr : i ∈ List.range n <;>
      simp [executedIndices, List.mem_filter, hgd, hr]

/-- C6 witness: registry of two tests with test 0 marked: test 0 runs in the
normal mode, test 1 runs under skip mode. -/
theorem C6_witness :
    0 ∈ executedIndices 2 [true, false] false ∧
    1 ∈ executedIndices 2 [true, false] true :=
  ⟨(C6_skip_complement 2 [true, false] 0).2.mpr ⟨by decide, by decide⟩,
   (C6_skip_complement 2 [true, false] 1).1.mpr ⟨by decide, by decide⟩⟩

/-- C7 counterexample: the claim fails on the cutest.h variant — supplying
the same test name twice on the command line (registry `{"a"}`, arguments
`a a`) executes that test twice, not once. -/
theorem C7_counterexample :
    cutestExecuted [['a']] [['a'], ['a']] false = some [0, 0] ∧
    ¬ ([0, 0] : List Nat).Nodup := by
  constructor
  · rfl
  · decide

/-- C7 amended: in the cute.h engine selection marking is idempotent —
`Cute_Remember` adds an index at most once, a pattern supplied twice yields
the same selection state as supplying it once, the run loop executes each
index at most once, and the whole run of a duplicated exact name equals the
run of the single name.  (The cutest.h variant instead appends duplicates
and runs them repeatedly.) -/
theorem C7_idempotent_marking (names : List Name) (p : Name) (i : Nat)
    (s : SelState) (hex : exactIdx names p = some i)
    (hlen : i < s.flags.length) (n : Nat) (flags : List Bool) (skip : Bool) :
    Cute_Remember (Cute_Remember s i) i = Cute_Remember s i ∧
    processPatterns names [p, p] s = processPatterns names [p] s ∧
    (executedIndices n flags skip).Nodup ∧
    cuteMainRun names [p, p] skip = cuteMainRun names [p] skip := by
  have hidem : ∀ t : SelState, i < t.flags.length →
      Cute_Remember (Cute_Remember t i) i = Cute_Remember t i :=
    fun t ht => remember_idem t i ht
  have hlook : ∀ t : SelState, Cute_Lookup names p t = (Cute_Remember t i, 1) := by
    intro t
    simp [Cute_Lookup, hex]
  have hpp : ∀ t : SelState, i < t.flags.length →
      processPatterns names [p, p] t = processPatterns names [p] t := by
    intro t ht
    have hrl : i < (Cute_Remember t i).flags.length := by
      rw [remember_length]
      exact ht
    simp [processPatterns, hlook, hidem t ht]
  have hlen0 : i < (initSel names.length).flags.length := by
    simpa [initSel] using exactIdx_lt p names i hex
  refine ⟨hidem s hlen, hpp s hlen, ?_, ?_⟩
  · exact List.Nodup.sublist (List.filter_sublist _) (List.nodup_range n)
  · unfold cuteMainRun
    rw [hpp (initSel names.length) hlen0]

/-- C7 witness: registry `{"a", "b"}` with the name `a` supplied twice marks
and runs exactly as with `a` supplied once. -/
theorem C7_witness :
    cuteMainRun [['a'], ['b']] [['a'], ['a']] false =
      cuteMainRun [['a'], ['b']] [['a']] false :=
  (C7_idempotent_marking [['a'], ['b']] ['a'] 0 (initSel 2) (by decide)
    (by decide) 2 [true, false] false).2.2.2

/-- C8 counterexample: at verbose level 0 (`--quiet`), with a test running
and its most recently recorded condition failed, `Cute_Message` forwards
nothing — the diagnostic is suppressed although the "last condition failed"
trigger holds, contradicting the claim that the text is then forwarded. -/
theorem C8_counterexample :
    Cute_Message ⟨0, true, true⟩ "m" = none ∧
    (⟨0, true, true⟩ : DiagCtx).failedcond = true := by
  constructor
  · rfl
  · rfl

/-- C8 amended: `Cute_Message` and `Cute_Dump` are no-ops whenever the most
recently recorded condition of the current test did not fail (or no test is
running); when that condition failed, a test is running and the verbose
level is at least 2 (the default), the text — and for the dump the length-
bounded byte buffer in rows of at most 16 bytes — is forwarded to the
reporter. -/
theorem C8_diagnostic_gating (ctx : DiagCtx) (text : String) (bytes : List Nat) :
    (ctx.failedcond = false →
      Cute_Message ctx text = none ∧ Cute_Dump ctx bytes = none) ∧
    (ctx.inTest = false →
      Cute_Message ctx text = none ∧ Cute_Dump ctx bytes = none) ∧
    (ctx.failedcond = true → ctx.inTest = true → 2 ≤ ctx.verbose →
      Cute_Message ctx text = some text ∧
      Cute_Dump ctx bytes = some (chunk16 (bytes.take CUTE_DUMP_MAXSIZE)) ∧
      (bytes.take CUTE_DUMP_MAXSIZE).length ≤ CUTE_DUMP_MAXSIZE ∧
      (∀ r ∈ chunk16 (bytes.take CUTE_DUMP_MAXSIZE), r.length ≤ 16)) := by
  refine ⟨?_, ?_, ?_⟩
  · intro hfc
    by_cases hv : ctx.verbose < 2 <;> simp [Cute_Message, Cute_Dump, hfc, hv]
  · intro hit
    by_cases hv : ctx.verbose < 2 <;> simp [Cute_Message, Cute_Dump, hit, hv]
  · intro hfc hit hv
    have hv' : ¬ ctx.verbose < 2 := by omega
    refine ⟨?_, ?_, ?_, chunk16_rows _⟩
    · simp [Cute_Message, hv', hfc, hit]
    · simp [Cute_Dump, hv', hfc, hit]
    · exact List.length_take_le CUTE_DUMP_MAXSIZE bytes

/-- C8 witness: at the default verbose level 2, inside a test whose last
condition failed, the message text is forwarded. -/
theorem C8_witness : Cute_Message ⟨2, true, true⟩ "m" = some "m" :=
  ((C8_diagnostic_gating ⟨2, true, true⟩ "m" [1, 2, 3]).2.2 rfl rfl
    (by norm_num)).1

/-- C10: across every sequence of in-range `Cute_Remember` calls starting
from the freshly initialized registry, `Cute_count` equals the number of
entries whose run flag is set; that counter is the `N` of the TAP `1..N`
plan line, and whenever it is at most 1 the isolation auto-detection forces
inline (no-exec) execution. -/
theorem C10_count_invariant (n : Nat) (ops : List Nat)
    (hops : ∀ i ∈ ops, i < n) (det : Bool) :
    (ops.foldl Cute_Remember (initSel n)).count =
      countMarked (ops.foldl Cute_Remember (initSel n)) ∧
    ((ops.foldl Cute_Remember (initSel n)).count ≤ 1 →
      resolveNoexec none (ops.foldl Cute_Remember (initSel n)).count det = true) ∧
    tapPlanLine (ops.foldl Cute_Remember (initSel n)) =
      "1.." ++ toString (countMarked (ops.foldl Cute_Remember (initSel n))) := by
  have key : ∀ (l : List Nat) (s : SelState), (∀ i ∈ l, i < n) →
      s.flags.length = n → s.count = countMarked s →
      (l.foldl Cute_Remember s).count = countMarked (l.foldl Cute_Remember s) := by
    intro l
    induction l with
    | nil => intro s _ _ h; exact h
    | cons j t ih =>
      intro s hl hlen hinv
      simp only [List.foldl_cons]
      apply ih
      · intro i hi
        exact hl i (List.mem_cons_of_mem _ hi)
      · rw [remember_length]
        exact hlen
      · by_cases hg : s.flags.getD j false = true
        · have h1 : Cute_Remember s j = s := by
            unfold Cute_Remember
            rw [hg]
            simp
          rw [h1]
          exact hinv
        · have hgf : s.flags.getD j false = false := by
            cases h : s.flags.getD j false
            · rfl
            · exact absurd h hg
          have h1 : Cute_Remember s j = ⟨s.flags.set j true, s.count + 1⟩ := by
            unfold Cute_Remember
            rw [hgf]
            simp
          rw [h1]
          show s.count + 1 = (s.flags.set j true).countP (fun b => b)
          rw [countP_set_true s.flags j (hlen ▸ hl j (by simp)) hgf]
          rw [hinv]
          rfl
  have hinit_len : (initSel n).flags.length = n := by simp [initSel]
  have hinit_cnt : (initSel n).count = countMarked (initSel n) := by
    show 0 = (List.replicate n false).countP (fun b => b)
    symm
    rw [List.countP_eq_zero]
    intro b hb
    have hbe := List.eq_of_mem_replicate hb
    simp [hbe]
  have hinv := key ops (initSel n) hops hinit_len hinit_cnt
  refine ⟨hinv, ?_, ?_⟩
  · intro hle
    simp only [resolveNoexec]
    rw [if_pos hle]
  · unfold tapPlanLine
    rw [hinv]

/-- C10 witness: remembering index 0 twice in a registry of two leaves the
counter equal to the one set flag, and a counter of at most 1 forces the
inline (no-exec) policy. -/
theorem C10_witness :
    ([0, 0].foldl Cute_Remember (initSel 2)).count =
      countMarked ([0, 0].foldl Cute_Remember (initSel 2)) ∧
    resolveNoexec none ([0, 0].foldl Cute_Remember (initSel 2)).count true = true := by
  have h := C10_count_invariant 2 [0, 0] (by decide) true
  exact ⟨h.1, h.2.1 (by decide)⟩

end Cute



